import Mathlib

/-!
Verification development for the speakids-novo client-side game engines:
the blurry-image guessing game
(`src/speakids-novo/src/app/daily-activity/blurry-image/page.tsx`) and the
memory-matching game
(`src/speakids-novo/src/app/daily-activity/memory-game/page.tsx`).

The React component state is embedded as explicit state records, the event
handlers as pure transition functions.  Randomness (`Math.random()`) is
embedded as an oracle parameter: every concrete run of the JavaScript
corresponds to some oracle, and conversely.  A thrown JavaScript exception
is embedded as `Option.none`.
-/

namespace SpeakidsGame

/-- `type GameState = 'idle' | 'loading' | 'playing' | 'correct' | 'lost'`
(blurry-image/page.tsx line 17). -/
inductive GameState where
  | idle
  | loading
  | playing
  | correct
  | lost
deriving DecidableEq, Repr

/-- The difficulty tiers accepted by `startNewChallenge`
(`ChallengeGeneratorInput['difficulty']`, values Easy/Medium/Hard). -/
inductive Difficulty where
  | Easy
  | Medium
  | Hard
deriving DecidableEq, Repr

/-- The payload returned by the `generateChallenge` collaborator:
`{ imageUrl: string, word: string }`. -/
structure Challenge where
  imageUrl : String
  word : String
deriving DecidableEq, Repr

/-- The component state of `ChallengeGeneratorPage`
(blurry-image/page.tsx lines 22-31): `gameState`, `imageUrl`,
`correctWord`, `difficulty`, `attempts`, `revealedIndices`, `hintsUsed`.
The transient form input `userGuess` is passed to `submitGuess` as an
argument instead of being stored. -/
structure BlurryState where
  imageUrl : Option String
  correctWord : String
  difficulty : Option Difficulty
  attempts : Nat
  revealedIndices : Finset Nat
  hintsUsed : Nat
  gameState : GameState
deriving DecidableEq

/-- Model of JavaScript `String.prototype.trim`: drop whitespace from both
ends of the character list. -/
def jsTrim (s : String) : String :=
  ⟨((s.data.dropWhile Char.isWhitespace).reverse.dropWhile Char.isWhitespace).reverse⟩

/-- Model of JavaScript `String.prototype.toLowerCase`: lower-case each
character. -/
def jsToLower (s : String) : String :=
  ⟨s.data.map Char.toLower⟩

/-- `userGuess.trim().toLowerCase() === correctWord.toLowerCase()`
(blurry-image/page.tsx line 74). -/
def guessCorrect (guess word : String) : Bool :=
  jsToLower (jsTrim guess) == jsToLower word

/-- The round allows 3 total attempts (comment at
blurry-image/page.tsx line 83: `// 3 total attempts (0, 1, 2)`). -/
def maxAttempts : Nat := 3

/-- `blurLevel = Math.max(0, 24 - attempts * 8)`
(blurry-image/page.tsx line 33); `Nat` subtraction is truncated, which is
exactly the `max 0` clamp. -/
def blurLevel (s : BlurryState) : Nat :=
  24 - s.attempts * 8

/-- `startNewChallenge` (blurry-image/page.tsx lines 35-52): resets the
round fields, then awaits `generateChallenge`; on success stores the image
and word and enters `playing`, on failure shows a toast and falls back to
`idle`.  The collaborator outcome is passed in as an `Except`. -/
def startNewChallenge (d : Difficulty) (s : BlurryState)
    (result : Except String Challenge) : BlurryState :=
  match result with
  | Except.ok ch =>
      { imageUrl := some ch.imageUrl
        correctWord := ch.word
        difficulty := some d
        attempts := 0
        revealedIndices := ∅
        hintsUsed := 0
        gameState := GameState.playing }
  | Except.error _ =>
      { s with
        difficulty := some d
        attempts := 0
        revealedIndices := ∅
        hintsUsed := 0
        gameState := GameState.idle }

/-- The guess-submission transition.  The status guard comes from
`renderContent` (blurry-image/page.tsx lines 198-211): the guess form only
exists inside `renderPlayingState` (lines 171-194, with the input disabled
unless `gameState === 'playing'` at line 179), so no submit event can reach
`handleGuessSubmit` outside the `playing` state.  The body is
`handleGuessSubmit` (lines 70-89): empty-after-trim guesses return early;
a correct guess sets `correct`; an incorrect guess increments `attempts`
and, when the pre-increment `attempts >= 2`, sets `lost`. -/
def submitGuess (guess : String) (s : BlurryState) : BlurryState :=
  if s.gameState ≠ GameState.playing then s
  else if jsTrim guess = "" then s
  else if guessCorrect guess s.correctWord then
    { s with gameState := GameState.correct }
  else
    { s with
      attempts := s.attempts + 1
      gameState := if 2 ≤ s.attempts then GameState.lost else s.gameState }

/-- `Array.from(Array(correctWord.length).keys()).filter(i =>
!revealedIndices.has(i) && correctWord[i] !== ' ')`
(blurry-image/page.tsx lines 92-93). -/
def unrevealedPositions (s : BlurryState) : List Nat :=
  (List.range s.correctWord.length).filter
    (fun i => !(decide (i ∈ s.revealedIndices))
      && !(decide (s.correctWord.data.getD i ' ' = ' ')))

/-- The reveal loop of `handleHint` (blurry-image/page.tsx lines 102-107):
run `fuel` times, breaking when the unrevealed pool is empty; each pass
picks `randomIndex = Math.floor(Math.random() * unrevealed.length)`,
splices that element out of the pool and adds it to the accumulated set.
`rand` is the oracle for the successive `Math.random()` draws. -/
def pickHints (rand : Nat → Nat) : Nat → List Nat → Finset Nat → Finset Nat
  | 0, _, acc => acc
  | fuel + 1, unrevealed, acc =>
      if unrevealed.length = 0 then acc
      else
        let idx := rand fuel % unrevealed.length
        let sel := unrevealed.getD idx 0
        pickHints rand fuel (unrevealed.eraseIdx idx) (insert sel acc)

/-- `handleHint` (blurry-image/page.tsx lines 91-110): return early when no
non-space position is unrevealed; otherwise increment `hintsUsed` and add
`revealCount = Math.max(1, Math.floor(unrevealed.length * 0.25))` spliced
random picks to `revealedIndices` (`n * 0.25` is exact in floating point,
so its floor is `n / 4` in `Nat`). -/
def requestHint (rand : Nat → Nat) (s : BlurryState) : BlurryState :=
  if (unrevealedPositions s).length = 0 then s
  else
    { s with
      hintsUsed := s.hintsUsed + 1
      revealedIndices :=
        pickHints rand (max 1 ((unrevealedPositions s).length / 4))
          (unrevealedPositions s) s.revealedIndices }

/-- Round states reachable through the component handlers: a round begins
with `startNewChallenge` (with either collaborator outcome) and evolves by
guess submissions and hint requests. -/
inductive Reachable : BlurryState → Prop where
  | startOk : ∀ d s ch, Reachable (startNewChallenge d s (Except.ok ch))
  | startErr : ∀ d s e, Reachable (startNewChallenge d s (Except.error e))
  | guess : ∀ s g, Reachable s → Reachable (submitGuess g s)
  | hint : ∀ s rand, Reachable s → Reachable (requestHint rand s)

/-- `gameState` of `MemoryGamePage`:
`'loading' | 'playing' | 'won'` (memory-game/page.tsx line 28). -/
inductive MemGameState where
  | loading
  | playing
  | won
deriving DecidableEq, Repr

/-- `type: 'word' | 'image'` of `GameCard` (memory-game/page.tsx
line 17). -/
inductive CardType where
  | word
  | image
deriving DecidableEq, Repr

/-- `interface GameCard` (memory-game/page.tsx lines 15-22). -/
structure GameCard where
  id : Nat
  type : CardType
  content : String
  pairId : String
  isFlipped : Bool
  isMatched : Bool
deriving DecidableEq, Repr

/-- One element of the list returned by the `generateMemoryGameCards`
collaborator: `{ word, imageUrl }`. -/
structure WordImagePair where
  word : String
  imageUrl : String
deriving DecidableEq, Repr

/-- The component state of `MemoryGamePage`
(memory-game/page.tsx lines 26-29): `cards`, `flippedCards`, `gameState`,
`isChecking`. -/
structure MemState where
  cards : List GameCard
  flippedCards : List Nat
  gameState : MemGameState
  isChecking : Bool
deriving DecidableEq

/-- The card-building loop of `startNewGame` (memory-game/page.tsx
lines 57-62): for the pair at position `idx`, push a word card with id
`idx * 2` and an image card with id `idx * 2 + 1`, both with
`pairId = word` and `isFlipped = isMatched = false`. -/
def buildGameCards : List WordImagePair → Nat → List GameCard
  | [], _ => []
  | p :: rest, idx =>
      { id := idx * 2, type := CardType.word, content := p.word,
        pairId := p.word, isFlipped := false, isMatched := false }
      :: { id := idx * 2 + 1, type := CardType.image, content := p.imageUrl,
           pairId := p.word, isFlipped := false, isMatched := false }
      :: buildGameCards rest (idx + 1)

/-- `startNewGame` (memory-game/page.tsx lines 51-70): clears
`flippedCards`, awaits `generateMemoryGameCards`, and on success installs
the shuffled card deck and enters `playing`.  On failure the catch block
shows a toast and ALSO sets `playing`
(line 68: `// Fallback to avoid being stuck in loading`), leaving `cards`
untouched.  `shuffleArray` (lines 32-34) sorts a copy with a random
comparator, which produces some permutation of its input; it is embedded
as the oracle `shuffle`, constrained to a permutation in the theorems. -/
def startNewGame (shuffle : List GameCard → List GameCard) (s : MemState)
    (result : Except String (List WordImagePair)) : MemState :=
  match result with
  | Except.ok fetched =>
      { s with
        cards := shuffle (buildGameCards fetched 0)
        flippedCards := []
        gameState := MemGameState.playing }
  | Except.error _ =>
      { s with
        flippedCards := []
        gameState := MemGameState.playing }

/-- The guard of `handleCardClick` (memory-game/page.tsx line 77):
`isChecking || flippedCards.length === 2 ||
cards.find(c => c.id === cardId)?.isFlipped`.  When no card has the id,
`find` yields `undefined` and `?.isFlipped` is `undefined`, which is
falsy — embedded by `Option.elim` with default `false`. -/
def flipGuard (s : MemState) (cardId : Nat) : Bool :=
  s.isChecking || s.flippedCards.length == 2
    || (s.cards.find? (fun c => c.id == cardId)).elim false
        (fun c => c.isFlipped)

/-- `handleCardClick` (memory-game/page.tsx lines 76-84): under the guard,
return unchanged; otherwise flip every card carrying the id face-up and
append the id to `flippedCards`. -/
def handleCardClick (cardId : Nat) (s : MemState) : MemState :=
  if flipGuard s cardId then s
  else
    { s with
      cards := s.cards.map
        (fun c => if c.id == cardId then { c with isFlipped := true } else c)
      flippedCards := s.flippedCards ++ [cardId] }

/-- `checkMatch` (memory-game/page.tsx lines 86-107): return unchanged
unless exactly two ids are selected; destructure the first two cards of
`cards.filter(c => flippedCards.includes(c.id))` and compare `pairId`,
marking both selected ids matched or flipping them back down, and clearing
`flippedCards` (with `isChecking` ending `false`).  When the filter holds
fewer than two cards, the destructured `firstCard`/`secondCard` is
`undefined` and reading `.pairId` throws a `TypeError` — embedded as
`none`. -/
def checkMatch (s : MemState) : Option MemState :=
  if s.flippedCards.length ≠ 2 then some s
  else
    match s.cards.filter (fun c => s.flippedCards.contains c.id) with
    | firstCard :: secondCard :: _ =>
        if firstCard.pairId == secondCard.pairId then
          some { s with
            cards := s.cards.map
              (fun c => if s.flippedCards.contains c.id then
                  { c with isMatched := true } else c)
            flippedCards := []
            isChecking := false }
        else
          some { s with
            cards := s.cards.map
              (fun c => if s.flippedCards.contains c.id then
                  { c with isFlipped := false } else c)
            flippedCards := []
            isChecking := false }
    | _ => none

/-- Matched cards are face-up: `checkMatch`'s match branch sets
`isMatched` without clearing `isFlipped`, so this is the claimable
invariant of the deck. -/
def matchedStayFlipped (s : MemState) : Prop :=
  ∀ c ∈ s.cards, c.isMatched = true → c.isFlipped = true

/-- Every selected id denotes face-up, unmatched cards — the auxiliary
invariant that makes `checkMatch`'s two branches correct. -/
def selectedOk (s : MemState) : Prop :=
  ∀ id ∈ s.flippedCards, ∀ c ∈ s.cards, c.id = id →
    c.isFlipped = true ∧ c.isMatched = false

/-- Card ids are pairwise distinct in the deck. -/
def cardIdsNodup (s : MemState) : Prop :=
  (s.cards.map (fun c => c.id)).Nodup

/-- The combined deck invariant of the memory game. -/
def MemInv (s : MemState) : Prop :=
  matchedStayFlipped s ∧ selectedOk s ∧ cardIdsNodup s

/-- A blank blurry-image component state (the mount defaults of
blurry-image/page.tsx lines 22-31). -/
def blankBlurry : BlurryState :=
  { imageUrl := none, correctWord := "", difficulty := none, attempts := 0,
    revealedIndices := ∅, hintsUsed := 0, gameState := GameState.idle }

/-- The round of the end-to-end example: an Easy challenge whose word is
"dragon". -/
def dragonRound : BlurryState :=
  startNewChallenge Difficulty.Easy blankBlurry (Except.ok ⟨"img", "dragon"⟩)

/-- A playing round over a five-letter target with no hints taken yet. -/
def fiveLetterRound : BlurryState :=
  { blankBlurry with correctWord := "abcde", gameState := GameState.playing }

/-- A playing round whose every (non-space) letter is already revealed. -/
def allRevealedRound : BlurryState :=
  { blankBlurry with
    correctWord := "ab"
    revealedIndices := insert 0 (insert 1 (∅ : Finset Nat))
    gameState := GameState.playing }

/-- A face-up word card for "cat". -/
def catCard : GameCard :=
  { id := 0, type := CardType.word, content := "cat", pairId := "cat",
    isFlipped := true, isMatched := false }

/-- The face-up image card paired with `catCard`. -/
def catImageCard : GameCard :=
  { id := 1, type := CardType.image, content := "cat.png", pairId := "cat",
    isFlipped := true, isMatched := false }

/-- A board holding only the face-up `catCard`, with its id selected. -/
def oneCardBoard : MemState :=
  { cards := [catCard], flippedCards := [0],
    gameState := MemGameState.playing, isChecking := false }

/-- A freshly mounted memory-game component (no cards yet). -/
def emptyBoard : MemState :=
  { cards := [], flippedCards := [], gameState := MemGameState.loading,
    isChecking := false }

/-- A board with the two "cat" cards face-up and selected, mid-check. -/
def twoFlippedBoard : MemState :=
  { cards := [catCard, catImageCard], flippedCards := [0, 1],
    gameState := MemGameState.playing, isChecking := true }

/-- The board `checkMatch` produces from `twoFlippedBoard`: both cards
matched, selection cleared. -/
def matchedBoard : MemState :=
  { cards := [{ catCard with isMatched := true },
              { catImageCard with isMatched := true }],
    flippedCards := [], gameState := MemGameState.playing,
    isChecking := false }

/-! ## General list facts used by the hint-reveal loop -/

theorem mem_of_mem_eraseIdx {l : List Nat} {i x : Nat}
    (h : x ∈ l.eraseIdx i) : x ∈ l :=
  (List.eraseIdx_sublist l i).subset h

theorem getElem_not_mem_eraseIdx :
    ∀ (l : List Nat), l.Nodup → ∀ (i : Nat) (h : i < l.length),
      l.get ⟨i, h⟩ ∉ l.eraseIdx i := by
  intro l
  induction l with
  | nil => intro _ i h; simp at h
  | cons a t ih =>
      intro hnd i h
      cases i with
      | zero =>
          simpa using (List.nodup_cons.mp hnd).1
      | succ j =>
          have hj : j < t.length := Nat.lt_of_succ_lt_succ h
          have hnd' := (List.nodup_cons.mp hnd).2
          have hna := (List.nodup_cons.mp hnd).1
          simp only [List.eraseIdx_cons_succ, List.get_cons_succ, List.mem_cons]
          rintro (hcase | hcase)
          · exact hna (hcase ▸ List.get_mem t j hj)
          · exact ih hnd' j hj hcase

/-! ## Facts about the hint picking loop and the unrevealed pool -/

theorem pickHints_subset (rand : Nat → Nat) :
    ∀ (fuel : Nat) (l : List Nat) (acc : Finset Nat),
      acc ⊆ pickHints rand fuel l acc := by
  intro fuel
  induction fuel with
  | zero => intro l acc; simp [pickHints]
  | succ n ih =>
      intro l acc
      by_cases h : l.length = 0
      · simp [pickHints, h]
      · simp only [pickHints, h, if_false]
        exact (Finset.subset_insert _ _).trans (ih _ _)

theorem mem_pickHints (rand : Nat → Nat) :
    ∀ (fuel : Nat) (l : List Nat) (acc : Finset Nat) (x : Nat),
      x ∈ pickHints rand fuel l acc → x ∈ acc ∨ x ∈ l := by
  intro fuel
  induction fuel with
  | zero => intro l acc x hx; exact Or.inl (by simpa [pickHints] using hx)
  | succ n ih =>
      intro l acc x hx
      by_cases h : l.length = 0
      · exact Or.inl (by simpa [pickHints, h] using hx)
      · simp only [pickHints, h, if_false] at hx
        have hlen : 0 < l.length := Nat.pos_of_ne_zero h
        have hidx : rand n % l.length < l.length := Nat.mod_lt _ hlen
        rcases ih _ _ _ hx with hacc | hl
        · rcases Finset.mem_insert.mp hacc with hsel | hold
          · refine Or.inr ?_
            have hg : l.getD (rand n % l.length) 0 =
                l.get ⟨rand n % l.length, hidx⟩ := by
              rw [List.getD_eq_getElem l 0 hidx]
              rfl
            rw [hsel, hg]
            exact List.get_mem l _ hidx
          · exact Or.inl hold
        · exact Or.inr (mem_of_mem_eraseIdx hl)

theorem pickHints_card (rand : Nat → Nat) :
    ∀ (fuel : Nat) (l : List Nat) (acc : Finset Nat),
      l.Nodup → (∀ x ∈ l, x ∉ acc) → fuel ≤ l.length →
      (pickHints rand fuel l acc).card = acc.card + fuel := by
  intro fuel
  induction fuel with
  | zero => intro l acc _ _ _; simp [pickHints]
  | succ n ih =>
      intro l acc hnd hdisj hle
      have h : l.length ≠ 0 := by omega
      simp only [pickHints, h, if_false]
      have hlen : 0 < l.length := Nat.pos_of_ne_zero h
      have hidx : rand n % l.length < l.length := Nat.mod_lt _ hlen
      have hgetD : l.getD (rand n % l.length) 0 =
          l.get ⟨rand n % l.length, hidx⟩ := by
        rw [List.getD_eq_getElem l 0 hidx]
        rfl
      have hselmem : l.getD (rand n % l.length) 0 ∈ l := by
        rw [hgetD]; exact List.get_mem l _ hidx
      have hselnot : l.getD (rand n % l.length) 0 ∉ acc := hdisj _ hselmem
      have herase : l.getD (rand n % l.length) 0 ∉ l.eraseIdx (rand n % l.length) := by
        rw [hgetD]
        exact getElem_not_mem_eraseIdx l hnd _ hidx
      have hnd' : (l.eraseIdx (rand n % l.length)).Nodup :=
        hnd.sublist (List.eraseIdx_sublist l _)
      have hdisj' : ∀ x ∈ l.eraseIdx (rand n % l.length),
          x ∉ insert (l.getD (rand n % l.length) 0) acc := by
        intro x hx hmem
        rcases Finset.mem_insert.mp hmem with hxe | hxa
        · exact herase (hxe ▸ hx)
        · exact hdisj x (mem_of_mem_eraseIdx hx) hxa
      have hle' : n ≤ (l.eraseIdx (rand n % l.length)).length := by
        rw [List.length_eraseIdx_of_lt hidx]
        omega
      rw [ih _ _ hnd' hdisj' hle',
        Finset.card_insert_of_not_mem hselnot]
      omega

theorem mem_unrevealedPositions {s : BlurryState} {i : Nat} :
    i ∈ unrevealedPositions s ↔
      i < s.correctWord.length ∧ i ∉ s.revealedIndices ∧
        s.correctWord.data.getD i ' ' ≠ ' ' := by
  simp [unrevealedPositions, List.mem_filter, List.mem_range, and_assoc]

theorem unrevealedPositions_nodup (s : BlurryState) :
    (unrevealedPositions s).Nodup :=
  (List.nodup_range _).filter _

/-! ## Transition shapes of `submitGuess` and `requestHint` -/

theorem submitGuess_not_playing {s : BlurryState} (g : String)
    (h : s.gameState ≠ GameState.playing) : submitGuess g s = s := by
  unfold submitGuess
  rw [if_pos h]

theorem submitGuess_blank {s : BlurryState} {g : String}
    (h : jsTrim g = "") : submitGuess g s = s := by
  unfold submitGuess
  by_cases hp : s.gameState ≠ GameState.playing
  · rw [if_pos hp]
  · rw [if_neg hp, if_pos h]

theorem submitGuess_right {s : BlurryState} {g : String}
    (hp : s.gameState = GameState.playing) (ht : jsTrim g ≠ "")
    (hc : guessCorrect g s.correctWord = true) :
    submitGuess g s = { s with gameState := GameState.correct } := by
  unfold submitGuess
  rw [if_neg (by simp [hp]), if_neg ht, if_pos hc]

theorem submitGuess_wrong {s : BlurryState} {g : String}
    (hp : s.gameState = GameState.playing) (ht : jsTrim g ≠ "")
    (hc : guessCorrect g s.correctWord = false) :
    submitGuess g s =
      { s with
        attempts := s.attempts + 1
        gameState :=
          if 2 ≤ s.attempts then GameState.lost else s.gameState } := by
  unfold submitGuess
  rw [if_neg (by simp [hp]), if_neg ht, if_neg (by simp [hc])]

theorem requestHint_gameState (rand : Nat → Nat) (s : BlurryState) :
    (requestHint rand s).gameState = s.gameState := by
  unfold requestHint
  split <;> rfl

theorem requestHint_attempts (rand : Nat → Nat) (s : BlurryState) :
    (requestHint rand s).attempts = s.attempts := by
  unfold requestHint
  split <;> rfl

theorem reachable_playing_attempts_le {s : BlurryState} (h : Reachable s) :
    s.gameState = GameState.playing → s.attempts ≤ 2 := by
  induction h with
  | startOk d s0 ch => intro _; exact Nat.zero_le 2
  | startErr d s0 e => intro hpl; simp [startNewChallenge] at hpl
  | guess s g hr ih =>
      intro hpl
      by_cases h1 : s.gameState = GameState.playing
      · by_cases h2 : jsTrim g = ""
        · rw [submitGuess_blank h2] at hpl ⊢
          exact ih hpl
        · rcases Bool.eq_false_or_eq_true (guessCorrect g s.correctWord)
            with h3 | h3
          · rw [submitGuess_right h1 h2 h3] at hpl
            have hpl' : GameState.correct = GameState.playing := hpl
            exact absurd hpl' (by decide)
          · rw [submitGuess_wrong h1 h2 h3] at hpl ⊢
            by_cases h4 : 2 ≤ s.attempts
            · have hpl' :
                  (if 2 ≤ s.attempts then GameState.lost else s.gameState)
                    = GameState.playing := hpl
              rw [if_pos h4] at hpl'
              exact absurd hpl' (by decide)
            · show s.attempts + 1 ≤ 2
              omega
      · rw [submitGuess_not_playing g h1] at hpl ⊢
        exact absurd hpl h1
  | hint s rand hr ih =>
      intro hpl
      rw [requestHint_gameState] at hpl
      rw [requestHint_attempts]
      exact ih hpl

theorem three_wrong_from_start {s : BlurryState} {g1 g2 g3 : String}
    (hp : s.gameState = GameState.playing) (ha : s.attempts = 0)
    (t1 : jsTrim g1 ≠ "") (c1 : guessCorrect g1 s.correctWord = false)
    (t2 : jsTrim g2 ≠ "") (c2 : guessCorrect g2 s.correctWord = false)
    (t3 : jsTrim g3 ≠ "") (c3 : guessCorrect g3 s.correctWord = false) :
    (submitGuess g3 (submitGuess g2 (submitGuess g1 s))).gameState
        = GameState.lost
    ∧ (submitGuess g3 (submitGuess g2 (submitGuess g1 s))).attempts = 3 := by
  have e1 := submitGuess_wrong hp t1 c1
  have hp1 : (submitGuess g1 s).gameState = GameState.playing := by
    rw [e1]
    show (if 2 ≤ s.attempts then GameState.lost else s.gameState)
        = GameState.playing
    rw [ha, if_neg (by decide)]
    exact hp
  have ha1 : (submitGuess g1 s).attempts = 1 := by
    rw [e1]
    show s.attempts + 1 = 1
    omega
  have hw1 : (submitGuess g1 s).correctWord = s.correctWord := by
    rw [e1]
  have e2 := submitGuess_wrong hp1 t2 (hw1 ▸ c2)
  have hp2 : (submitGuess g2 (submitGuess g1 s)).gameState
      = GameState.playing := by
    rw [e2]
    show (if 2 ≤ (submitGuess g1 s).attempts then GameState.lost
        else (submitGuess g1 s).gameState) = GameState.playing
    rw [ha1, if_neg (by decide)]
    exact hp1
  have ha2 : (submitGuess g2 (submitGuess g1 s)).attempts = 2 := by
    rw [e2]
    show (submitGuess g1 s).attempts + 1 = 2
    omega
  have hw2 : (submitGuess g2 (submitGuess g1 s)).correctWord
      = s.correctWord := by
    rw [e2]
    show (submitGuess g1 s).correctWord = s.correctWord
    exact hw1
  have e3 := submitGuess_wrong hp2 t3 (hw2 ▸ c3)
  constructor
  · rw [e3]
    show (if 2 ≤ (submitGuess g2 (submitGuess g1 s)).attempts
        then GameState.lost
        else (submitGuess g2 (submitGuess g1 s)).gameState) = GameState.lost
    rw [ha2, if_pos (by decide)]
  · rw [e3]
    show (submitGuess g2 (submitGuess g1 s)).attempts + 1 = 3
    omega

/-- C1: (i) from a freshly started playing round, every sequence of three
(`maxAttempts`) incorrect guesses ends with status `lost` and
`attemptsUsed = maxAttempts`; (ii) along reachable round states, a
transition into `lost` happens only out of `playing`, only on an incorrect
guess, and only with resulting `attemptsUsed = maxAttempts`. -/
theorem lost_only_at_max_attempts :
    (∀ (d : Difficulty) (s0 : BlurryState) (ch : Challenge)
        (g1 g2 g3 : String),
        jsTrim g1 ≠ "" → guessCorrect g1 ch.word = false →
        jsTrim g2 ≠ "" → guessCorrect g2 ch.word = false →
        jsTrim g3 ≠ "" → guessCorrect g3 ch.word = false →
        (submitGuess g3 (submitGuess g2 (submitGuess g1
            (startNewChallenge d s0 (Except.ok ch))))).gameState
            = GameState.lost
        ∧ (submitGuess g3 (submitGuess g2 (submitGuess g1
            (startNewChallenge d s0 (Except.ok ch))))).attempts
            = maxAttempts)
    ∧ (∀ (s : BlurryState) (g : String), Reachable s →
        s.gameState ≠ GameState.lost →
        (submitGuess g s).gameState = GameState.lost →
        (submitGuess g s).attempts = maxAttempts
        ∧ s.gameState = GameState.playing
        ∧ guessCorrect g s.correctWord = false) := by
  constructor
  · intro d s0 ch g1 g2 g3 t1 c1 t2 c2 t3 c3
    exact three_wrong_from_start rfl rfl t1 c1 t2 c2 t3 c3
  · intro s g hr hnl hl
    by_cases h1 : s.gameState = GameState.playing
    · by_cases h2 : jsTrim g = ""
      · rw [submitGuess_blank h2] at hl
        exact absurd hl hnl
      · rcases Bool.eq_false_or_eq_true (guessCorrect g s.correctWord)
          with h3 | h3
        · rw [submitGuess_right h1 h2 h3] at hl
          have hl' : GameState.correct = GameState.lost := hl
          exact absurd hl' (by decide)
        · have hle := reachable_playing_attempts_le hr h1
          have e := submitGuess_wrong h1 h2 h3
          refine ⟨?_, h1, h3⟩
          rw [e] at hl ⊢
          have hl' : (if 2 ≤ s.attempts then GameState.lost else s.gameState)
              = GameState.lost := hl
          show s.attempts + 1 = maxAttempts
          by_cases h4 : 2 ≤ s.attempts
          · have h5 : s.attempts = 2 := by omega
            rw [h5]
            rfl
          · rw [if_neg h4, h1] at hl'
            exact absurd hl' (by decide)
    · rw [submitGuess_not_playing g h1] at hl
      exact absurd hl hnl

/-- Witness for C1: three "dog" guesses on the "dragon" round lose it with
three attempts used, and the concrete losing transition out of the
two-attempt state satisfies part (ii). -/
theorem lost_only_at_max_attempts_witness :
    ((submitGuess "dog" (submitGuess "dog" (submitGuess "dog"
        dragonRound))).gameState = GameState.lost
      ∧ (submitGuess "dog" (submitGuess "dog" (submitGuess "dog"
        dragonRound))).attempts = maxAttempts)
    ∧ ((submitGuess "dog" (submitGuess "dog" (submitGuess "dog"
        dragonRound))).attempts = maxAttempts
      ∧ (submitGuess "dog" (submitGuess "dog" dragonRound)).gameState
          = GameState.playing
      ∧ guessCorrect "dog"
          (submitGuess "dog" (submitGuess "dog" dragonRound)).correctWord
          = false) := by
  constructor
  · exact lost_only_at_max_attempts.1 Difficulty.Easy blankBlurry
      ⟨"img", "dragon"⟩ "dog" "dog" "dog" (by decide) (by decide) (by decide)
      (by decide) (by decide) (by decide)
  · exact lost_only_at_max_attempts.2
      (submitGuess "dog" (submitGuess "dog" dragonRound)) "dog"
      (Reachable.guess _ _ (Reachable.guess _ _
        (Reachable.startOk Difficulty.Easy blankBlurry ⟨"img", "dragon"⟩)))
      (by decide) (by decide)

/-- C5: `submitGuess` is a silent no-op — no state change at all — whenever
the round status is not `playing` (in particular in the terminal `correct`
and `lost` states, where the guess form is not even rendered) or the guess
is empty after trimming. -/
theorem submit_noop_when_not_playing_or_blank (s : BlurryState) (g : String)
    (h : s.gameState ≠ GameState.playing ∨ jsTrim g = "") :
    submitGuess g s = s := by
  rcases h with h | h
  · exact submitGuess_not_playing g h
  · exact submitGuess_blank h

/-- Witness for C5: guessing "dog" on a lost round changes nothing. -/
theorem submit_noop_when_not_playing_or_blank_witness :
    submitGuess "dog" { blankBlurry with gameState := GameState.lost } =
      { blankBlurry with gameState := GameState.lost } :=
  submit_noop_when_not_playing_or_blank _ "dog" (Or.inl (by decide))

/-- C7: on a playing round with a non-empty target word, any guess equal to
the target up to leading/trailing whitespace of the guess and letter case
of either side sets the status to `correct` (Won). -/
theorem correct_guess_wins (s : BlurryState) (g : String)
    (hp : s.gameState = GameState.playing) (hw : s.correctWord ≠ "")
    (heq : jsToLower (jsTrim g) = jsToLower s.correctWord) :
    (submitGuess g s).gameState = GameState.correct := by
  have htrim : jsTrim g ≠ "" := by
    intro h0
    apply hw
    have hlow : jsToLower s.correctWord = jsToLower "" := by
      rw [← heq, h0]
    have hdata : s.correctWord.data.map Char.toLower = [] :=
      congrArg String.data hlow
    have hnil : s.correctWord.data = [] := List.map_eq_nil_iff.mp hdata
    exact String.ext hnil
  have hguess : guessCorrect g s.correctWord = true := by
    unfold guessCorrect
    rw [heq]
    exact beq_self_eq_true _
  rw [submitGuess_right hp htrim hguess]

/-- Witness for C7: the end-to-end example — an Easy round on "dragon",
guessed as "Dragon " with a trailing space and mixed case, is Won. -/
theorem correct_guess_wins_witness :
    (submitGuess "Dragon " dragonRound).gameState = GameState.correct :=
  correct_guess_wins dragonRound "Dragon " (by decide) (by decide) (by decide)

/-- C6: `requestHint` only ever adds non-space positions of the target
word, it only grows `revealedIndices`, and once every non-space position
is revealed every further call is a no-op. -/
theorem hint_monotone_nonspace_terminates (s : BlurryState)
    (rand : Nat → Nat) :
    s.revealedIndices ⊆ (requestHint rand s).revealedIndices
    ∧ (∀ i ∈ (requestHint rand s).revealedIndices, i ∉ s.revealedIndices →
        s.correctWord.data.getD i ' ' ≠ ' ')
    ∧ ((∀ i, i < s.correctWord.length →
          s.correctWord.data.getD i ' ' ≠ ' ' → i ∈ s.revealedIndices) →
        requestHint rand s = s) := by
  refine ⟨?_, ?_, ?_⟩
  · unfold requestHint
    split
    · exact Finset.Subset.refl _
    · exact pickHints_subset rand _ _ _
  · intro i hi hnot
    unfold requestHint at hi
    by_cases h0 : (unrevealedPositions s).length = 0
    · rw [if_pos h0] at hi
      exact absurd hi hnot
    · rw [if_neg h0] at hi
      rcases mem_pickHints rand _ _ _ i hi with hacc | hl
      · exact absurd hacc hnot
      · exact (mem_unrevealedPositions.mp hl).2.2
  · intro hall
    have hnil : unrevealedPositions s = [] := by
      unfold unrevealedPositions
      rw [List.filter_eq_nil_iff]
      intro a ha hpred
      rw [List.mem_range] at ha
      simp only [Bool.and_eq_true, Bool.not_eq_true',
        decide_eq_false_iff_not] at hpred
      exact hpred.1 (hall a ha hpred.2)
    unfold requestHint
    rw [if_pos (by rw [hnil]; rfl)]

/-- Witness for C6: on the fully revealed two-letter round, a hint call
with any oracle changes nothing. -/
theorem hint_monotone_nonspace_terminates_witness :
    requestHint (fun _ => 0) allRevealedRound = allRevealedRound :=
  (hint_monotone_nonspace_terminates allRevealedRound (fun _ => 0)).2.2
    (by decide)

/-- C4 counterexample: on the five-letter round with every position
unrevealed, `unrevealedCount = 5`, so the claim demands
`ceil(5 * 0.25) = (5 + 3) / 4 = 2` newly revealed positions, but
`handleHint` (embedded with the oracle that always draws index 0) adds
only `max(1, floor(5 * 0.25)) = 1`. -/
theorem hint_reveal_count_not_ceil_cex :
    (requestHint (fun _ => 0) fiveLetterRound).revealedIndices.card
      ≠ fiveLetterRound.revealedIndices.card
        + ((unrevealedPositions fiveLetterRound).length + 3) / 4 := by
  decide

/-- C4 (amended): while at least one non-space position is unrevealed, one
`requestHint` call adds exactly `max(1, floor(unrevealedCount * 0.25))`
previously unrevealed non-space positions and increments `hintsUsed` by
one. -/
theorem hint_reveals_max_one_floor_quarter (s : BlurryState)
    (rand : Nat → Nat) (h : unrevealedPositions s ≠ []) :
    (requestHint rand s).revealedIndices.card
        = s.revealedIndices.card + max 1 ((unrevealedPositions s).length / 4)
    ∧ (requestHint rand s).hintsUsed = s.hintsUsed + 1
    ∧ (∀ i ∈ (requestHint rand s).revealedIndices, i ∉ s.revealedIndices →
        i ∈ unrevealedPositions s) := by
  have h0 : (unrevealedPositions s).length ≠ 0 := by
    simpa [List.length_eq_zero] using h
  have hpos : 0 < (unrevealedPositions s).length := Nat.pos_of_ne_zero h0
  refine ⟨?_, ?_, ?_⟩
  · unfold requestHint
    rw [if_neg h0]
    exact pickHints_card rand _ _ _ (unrevealedPositions_nodup s)
      (fun x hx => (mem_unrevealedPositions.mp hx).2.1)
      (max_le hpos (Nat.div_le_self _ _))
  · unfold requestHint
    rw [if_neg h0]
  · intro i hi hnot
    unfold requestHint at hi
    rw [if_neg h0] at hi
    rcases mem_pickHints rand _ _ _ i hi with hacc | hl
    · exact absurd hacc hnot
    · exact hl

/-- Witness for C4 (amended): the five-letter round gains exactly one
revealed position and one hint. -/
theorem hint_reveals_max_one_floor_quarter_witness :
    (requestHint (fun _ => 0) fiveLetterRound).revealedIndices.card
        = fiveLetterRound.revealedIndices.card
          + max 1 ((unrevealedPositions fiveLetterRound).length / 4)
    ∧ (requestHint (fun _ => 0) fiveLetterRound).hintsUsed
        = fiveLetterRound.hintsUsed + 1 :=
  ⟨(hint_reveals_max_one_floor_quarter fiveLetterRound (fun _ => 0)
      (by decide)).1,
   (hint_reveals_max_one_floor_quarter fiveLetterRound (fun _ => 0)
      (by decide)).2.1⟩

/-! ## Memory-game facts -/

theorem contains_iff_mem {l : List Nat} {a : Nat} :
    l.contains a = true ↔ a ∈ l :=
  List.elem_iff

/-- C3 counterexample: when the card-fetch collaborator fails during the
memory game's start, the catch block deliberately sets the state to
`playing` — a Playing state — rather than a non-Playing error state. -/
theorem start_failure_memory_playing_cex :
    (startNewGame (fun l => l) emptyBoard
        (Except.error "network")).gameState = MemGameState.playing := rfl

/-- C3 (amended): a collaborator failure during start is caught in both
variants (the embedded transitions are total, so nothing propagates past
the call boundary); the blurry-image round falls back to the non-Playing
`idle` state, while the memory game deliberately falls back to `playing`
(its comment: avoid being stuck in loading), clearing the selection and
leaving the deck unchanged. -/
theorem start_failure_caught (d : Difficulty) (bs : BlurryState)
    (sh : List GameCard → List GameCard) (ms : MemState) (e : String) :
    (startNewChallenge d bs (Except.error e)).gameState = GameState.idle
    ∧ (startNewChallenge d bs (Except.error e)).gameState
        ≠ GameState.playing
    ∧ (startNewGame sh ms (Except.error e)).gameState
        = MemGameState.playing
    ∧ (startNewGame sh ms (Except.error e)).cards = ms.cards
    ∧ (startNewGame sh ms (Except.error e)).flippedCards = [] :=
  ⟨rfl, by simp [startNewChallenge], rfl, rfl, rfl⟩

/-- C8: the selected list never exceeds two ids: a click while two cards
are selected is a complete no-op, a click never pushes the selection above
two, and a completed pair evaluation clears the selection. -/
theorem selected_never_exceeds_two (s : MemState) (cardId : Nat) :
    (s.flippedCards.length = 2 → handleCardClick cardId s = s)
    ∧ (s.flippedCards.length ≤ 2 →
        (handleCardClick cardId s).flippedCards.length ≤ 2)
    ∧ (∀ s', s.flippedCards.length = 2 → checkMatch s = some s' →
        s'.flippedCards = []) := by
  refine ⟨?_, ?_, ?_⟩
  · intro h2
    unfold handleCardClick
    rw [if_pos (by simp [flipGuard, h2])]
  · intro hle
    by_cases hg : flipGuard s cardId = true
    · unfold handleCardClick
      rw [if_pos hg]
      exact hle
    · have hne : s.flippedCards.length ≠ 2 := by
        intro h2
        exact hg (by simp [flipGuard, h2])
      unfold handleCardClick
      rw [if_neg hg]
      show (s.flippedCards ++ [cardId]).length ≤ 2
      rw [List.length_append]
      simp only [List.length_cons, List.length_nil]
      omega
  · intro s' h2 hcm
    unfold checkMatch at hcm
    rw [if_neg (not_not_intro h2)] at hcm
    cases hfil : s.cards.filter (fun c => s.flippedCards.contains c.id) with
    | nil =>
        rw [hfil] at hcm
        exact Option.noConfusion hcm
    | cons c1 rest =>
        cases rest with
        | nil =>
            rw [hfil] at hcm
            exact Option.noConfusion hcm
        | cons c2 rest2 =>
            rw [hfil] at hcm
            dsimp only at hcm
            by_cases hpair : (c1.pairId == c2.pairId) = true
            · rw [if_pos hpair] at hcm
              injection hcm with h
              subst h
              rfl
            · rw [if_neg hpair] at hcm
              injection hcm with h
              subst h
              rfl

/-- Witness for C8: on the mid-check board a third click is ignored, the
bound is kept, and evaluating the selected "cat" pair clears the
selection. -/
theorem selected_never_exceeds_two_witness :
    handleCardClick 7 twoFlippedBoard = twoFlippedBoard
    ∧ (handleCardClick 7 twoFlippedBoard).flippedCards.length ≤ 2
    ∧ matchedBoard.flippedCards = [] :=
  ⟨(selected_never_exceeds_two twoFlippedBoard 7).1 rfl,
   (selected_never_exceeds_two twoFlippedBoard 7).2.1 (by decide),
   (selected_never_exceeds_two twoFlippedBoard 7).2.2 matchedBoard rfl
     (by decide)⟩

/-- C2 counterexample: on `oneCardBoard` (one face-up card with id 0,
selected), flipping the id 5 — which matches no card — passes the guard
(`find(...)?.isFlipped` is `undefined`, which is falsy), appends 5 to the
selection (a state change, not a no-op), and the triggered pair
evaluation filters only one card, so destructuring `secondCard` yields
`undefined` and reading `.pairId` throws (embedded as `none`). -/
theorem flip_invalid_id_not_noop_cex :
    handleCardClick 5 oneCardBoard ≠ oneCardBoard
    ∧ checkMatch (handleCardClick 5 oneCardBoard) = none := by
  constructor
  · decide
  · decide

/-- C2 (amended): `flip` is a no-op and throws nothing when the engine is
mid-evaluation, when two cards are already selected, or when the clicked
id matches an already face-up card (which covers duplicate clicks); but an
id matching no card is not guarded: it leaves the deck unchanged while
appending the id to the selection, and a pair evaluation whose two
selected ids match fewer than two cards throws. -/
theorem flip_guard_semantics (s : MemState) (cardId : Nat) :
    (s.isChecking = true → handleCardClick cardId s = s)
    ∧ (s.flippedCards.length = 2 → handleCardClick cardId s = s)
    ∧ (∀ c0, s.cards.find? (fun c => c.id == cardId) = some c0 →
        c0.isFlipped = true → handleCardClick cardId s = s)
    ∧ (s.cards.find? (fun c => c.id == cardId) = none →
        s.isChecking = false → s.flippedCards.length ≠ 2 →
        (handleCardClick cardId s).cards = s.cards
        ∧ (handleCardClick cardId s).flippedCards
            = s.flippedCards ++ [cardId])
    ∧ (s.flippedCards.length = 2 →
        (s.cards.filter
            (fun c => s.flippedCards.contains c.id)).length < 2 →
        checkMatch s = none) := by
  refine ⟨?_, ?_, ?_, ?_, ?_⟩
  · intro h
    unfold handleCardClick
    rw [if_pos (by simp [flipGuard, h])]
  · intro h
    unfold handleCardClick
    rw [if_pos (by simp [flipGuard, h])]
  · intro c0 hfind hflip
    unfold handleCardClick
    rw [if_pos (by simp [flipGuard, hfind, hflip])]
  · intro hfind hchk hlen
    have hg : flipGuard s cardId = false := by
      simp [flipGuard, hfind, hchk, hlen]
    unfold handleCardClick
    rw [if_neg (by simp [hg])]
    constructor
    · show s.cards.map
          (fun c => if c.id == cardId then { c with isFlipped := true }
            else c) = s.cards
      have hnone := List.find?_eq_none.mp hfind
      have hstep : s.cards.map
          (fun c => if c.id == cardId then { c with isFlipped := true }
            else c) = s.cards.map (fun c => c) := by
        apply List.map_congr_left
        intro c hc
        have hf : (c.id == cardId) = false :=
          Bool.eq_false_iff.mpr (hnone c hc)
        simp [hf]
      rw [hstep, List.map_id']
    · rfl
  · intro h2 hlt
    unfold checkMatch
    rw [if_neg (not_not_intro h2)]
    cases hfil : s.cards.filter (fun c => s.flippedCards.contains c.id) with
    | nil => rfl
    | cons c1 rest =>
        cases rest with
        | nil => rfl
        | cons c2 rest2 =>
            rw [hfil] at hlt
            simp only [List.length_cons] at hlt
            exact absurd hlt (by omega)

/-- Witness for C2 (amended): a click while two cards are selected is
ignored; clicking the absent id 5 keeps the deck but grows the selection;
the resulting evaluation throws. -/
theorem flip_guard_semantics_witness :
    handleCardClick 3 twoFlippedBoard = twoFlippedBoard
    ∧ ((handleCardClick 5 oneCardBoard).cards = oneCardBoard.cards
      ∧ (handleCardClick 5 oneCardBoard).flippedCards
          = oneCardBoard.flippedCards ++ [5])
    ∧ checkMatch (handleCardClick 5 oneCardBoard) = none :=
  ⟨(flip_guard_semantics twoFlippedBoard 3).1 rfl,
   (flip_guard_semantics oneCardBoard 5).2.2.2.1 (by decide) rfl (by decide),
   (flip_guard_semantics (handleCardClick 5 oneCardBoard) 9).2.2.2.2
     (by decide) (by decide)⟩

/-! ## Counting facts about the built card deck -/

theorem buildGameCards_length :
    ∀ (ps : List WordImagePair) (idx : Nat),
      (buildGameCards ps idx).length = 2 * ps.length := by
  intro ps
  induction ps with
  | nil => intro idx; rfl
  | cons p rest ih =>
      intro idx
      simp only [buildGameCards, List.length_cons, ih, List.length]
      omega

theorem mem_buildGameCards_flags :
    ∀ {ps : List WordImagePair} {idx : Nat} {c : GameCard},
      c ∈ buildGameCards ps idx →
      c.isFlipped = false ∧ c.isMatched = false := by
  intro ps
  induction ps with
  | nil => intro idx c hc; simp [buildGameCards] at hc
  | cons p rest ih =>
      intro idx c hc
      simp only [buildGameCards, List.mem_cons] at hc
      rcases hc with rfl | rfl | hc
      · exact ⟨rfl, rfl⟩
      · exact ⟨rfl, rfl⟩
      · exact ih hc

theorem mem_buildGameCards_pairId :
    ∀ {ps : List WordImagePair} {idx : Nat} {c : GameCard},
      c ∈ buildGameCards ps idx →
      c.pairId ∈ ps.map (fun p => p.word) := by
  intro ps
  induction ps with
  | nil => intro idx c hc; simp [buildGameCards] at hc
  | cons p rest ih =>
      intro idx c hc
      simp only [buildGameCards, List.mem_cons] at hc
      simp only [List.map_cons, List.mem_cons]
      rcases hc with rfl | rfl | hc
      · exact Or.inl rfl
      · exact Or.inl rfl
      · exact Or.inr (ih hc)

theorem buildGameCards_countP_pair (w : String) :
    ∀ (ps : List WordImagePair) (idx : Nat),
      (buildGameCards ps idx).countP (fun c => c.pairId == w)
        = 2 * (ps.map (fun p => p.word)).count w := by
  intro ps
  induction ps with
  | nil => intro idx; rfl
  | cons p rest ih =>
      intro idx
      simp only [buildGameCards, List.countP_cons, List.map_cons,
        List.count_cons, ih]
      by_cases hw : p.word = w
      · simp [hw]
        omega
      · have h1 : (p.word == w) = false := by
          simp [hw]
        have h2 : (w == p.word) = false := by
          simp [Ne.symm hw]
        simp [h1, h2]

theorem buildGameCards_countP_word (w : String) :
    ∀ (ps : List WordImagePair) (idx : Nat),
      (buildGameCards ps idx).countP
          (fun c => c.pairId == w && c.type == CardType.word)
        = (ps.map (fun p => p.word)).count w := by
  intro ps
  induction ps with
  | nil => intro idx; rfl
  | cons p rest ih =>
      intro idx
      simp only [buildGameCards, List.countP_cons, List.map_cons,
        List.count_cons, ih]
      by_cases hw : p.word = w
      · simp [hw]
      · have h1 : (p.word == w) = false := by
          simp [hw]
        have h2 : (w == p.word) = false := by
          simp [Ne.symm hw]
        simp [h1, h2]

theorem buildGameCards_countP_image (w : String) :
    ∀ (ps : List WordImagePair) (idx : Nat),
      (buildGameCards ps idx).countP
          (fun c => c.pairId == w && c.type == CardType.image)
        = (ps.map (fun p => p.word)).count w := by
  intro ps
  induction ps with
  | nil => intro idx; rfl
  | cons p rest ih =>
      intro idx
      simp only [buildGameCards, List.countP_cons, List.map_cons,
        List.count_cons, ih]
      by_cases hw : p.word = w
      · simp [hw]
      · have h1 : (p.word == w) = false := by
          simp [hw]
        have h2 : (w == p.word) = false := by
          simp [Ne.symm hw]
        simp [h1, h2]

/-- C9 counterexample: starting the memory game from two pairs that share
the word "cat" builds four cards that all carry the same `pairId`, so it
is false that exactly two cards share each pair key. -/
theorem start_pairs_duplicate_words_cex :
    ¬ (∀ c ∈ (startNewGame (fun l => l) emptyBoard
          (Except.ok [⟨"cat", "a"⟩, ⟨"cat", "b"⟩])).cards,
        (startNewGame (fun l => l) emptyBoard
            (Except.ok [⟨"cat", "a"⟩, ⟨"cat", "b"⟩])).cards.countP
          (fun c2 => c2.pairId == c.pairId) = 2) := by
  decide

/-- C9 (amended): for every list of pairs whose words are pairwise
distinct, start builds exactly `2 * N` cards, all face-down and unmatched,
and each pair key is carried by exactly two cards — one word card and one
image card. -/
theorem start_builds_card_pairs (sh : List GameCard → List GameCard)
    (hsh : ∀ l, (sh l).Perm l) (s : MemState)
    (pairs : List WordImagePair)
    (hw : (pairs.map (fun p => p.word)).Nodup) :
    (startNewGame sh s (Except.ok pairs)).cards.length = 2 * pairs.length
    ∧ (∀ c ∈ (startNewGame sh s (Except.ok pairs)).cards,
        c.isFlipped = false ∧ c.isMatched = false)
    ∧ (∀ c ∈ (startNewGame sh s (Except.ok pairs)).cards,
        (startNewGame sh s (Except.ok pairs)).cards.countP
            (fun c2 => c2.pairId == c.pairId) = 2
        ∧ (startNewGame sh s (Except.ok pairs)).cards.countP
            (fun c2 => c2.pairId == c.pairId
              && c2.type == CardType.word) = 1
        ∧ (startNewGame sh s (Except.ok pairs)).cards.countP
            (fun c2 => c2.pairId == c.pairId
              && c2.type == CardType.image) = 1) := by
  have hcards : (startNewGame sh s (Except.ok pairs)).cards
      = sh (buildGameCards pairs 0) := rfl
  have hperm := hsh (buildGameCards pairs 0)
  refine ⟨?_, ?_, ?_⟩
  · rw [hcards, hperm.length_eq, buildGameCards_length]
  · intro c hc
    rw [hcards] at hc
    exact mem_buildGameCards_flags (hperm.mem_iff.mp hc)
  · intro c hc
    rw [hcards] at hc
    have hcb : c ∈ buildGameCards pairs 0 := hperm.mem_iff.mp hc
    have hwmem : c.pairId ∈ pairs.map (fun p => p.word) :=
      mem_buildGameCards_pairId hcb
    have hcount : (pairs.map (fun p => p.word)).count c.pairId = 1 :=
      List.count_eq_one_of_mem hw hwmem
    refine ⟨?_, ?_, ?_⟩
    · rw [hcards, hperm.countP_eq, buildGameCards_countP_pair, hcount]
    · rw [hcards, hperm.countP_eq, buildGameCards_countP_word, hcount]
    · rw [hcards, hperm.countP_eq, buildGameCards_countP_image, hcount]

/-- Witness for C9 (amended): two distinct-word pairs build a four-card
deck in which each of the two pair keys is carried by exactly two
cards. -/
theorem start_builds_card_pairs_witness :
    (startNewGame (fun l => l) emptyBoard
        (Except.ok [⟨"cat", "a"⟩, ⟨"dog", "b"⟩])).cards.length
      = 2 * ([⟨"cat", "a"⟩, ⟨"dog", "b"⟩] : List WordImagePair).length
    ∧ (∀ c ∈ (startNewGame (fun l => l) emptyBoard
          (Except.ok [⟨"cat", "a"⟩, ⟨"dog", "b"⟩])).cards,
        c.isFlipped = false ∧ c.isMatched = false) :=
  ⟨(start_builds_card_pairs (fun l => l) (fun l => List.Perm.refl l)
      emptyBoard [⟨"cat", "a"⟩, ⟨"dog", "b"⟩] (by decide)).1,
   (start_builds_card_pairs (fun l => l) (fun l => List.Perm.refl l)
      emptyBoard [⟨"cat", "a"⟩, ⟨"dog", "b"⟩] (by decide)).2.1⟩

/-! ## The deck invariant: matched cards stay face-up -/

theorem buildGameCards_id_ge :
    ∀ (ps : List WordImagePair) (idx : Nat),
      ∀ c ∈ buildGameCards ps idx, 2 * idx ≤ c.id := by
  intro ps
  induction ps with
  | nil => intro idx c hc; simp [buildGameCards] at hc
  | cons p rest ih =>
      intro idx c hc
      simp only [buildGameCards, List.mem_cons] at hc
      rcases hc with rfl | rfl | hc
      · show 2 * idx ≤ idx * 2
        omega
      · show 2 * idx ≤ idx * 2 + 1
        omega
      · have := ih (idx + 1) c hc
        omega

theorem buildGameCards_ids_nodup :
    ∀ (ps : List WordImagePair) (idx : Nat),
      ((buildGameCards ps idx).map (fun c => c.id)).Nodup := by
  intro ps
  induction ps with
  | nil => intro idx; simp [buildGameCards]
  | cons p rest ih =>
      intro idx
      simp only [buildGameCards, List.map_cons, List.nodup_cons,
        List.mem_cons, List.mem_map]
      refine ⟨?_, ?_, ih (idx + 1)⟩
      · rintro (h | ⟨c, hc, hcid⟩)
        · omega
        · have := buildGameCards_id_ge rest (idx + 1) c hc
          omega
      · rintro ⟨c, hc, hcid⟩
        have := buildGameCards_id_ge rest (idx + 1) c hc
        omega

theorem cardIds_map_nodup {s : MemState} (hnd : cardIdsNodup s)
    (f : GameCard → GameCard) (hf : ∀ c, (f c).id = c.id) :
    ((s.cards.map f).map (fun c => c.id)).Nodup := by
  rw [List.map_map]
  have he : s.cards.map ((fun c => c.id) ∘ f)
      = s.cards.map (fun c => c.id) :=
    List.map_congr_left (fun c _ => hf c)
  rw [he]
  exact hnd

/-- C10: matched cards are face-up: the invariant (bundled with the
auxiliary facts that selected ids denote face-up unmatched cards and that
ids are distinct) holds after `startNewGame`, is preserved by
`handleCardClick`, and is preserved by both branches of `checkMatch` —
the match branch sets `isMatched` without clearing `isFlipped`, and the
mismatch branch flips back only selected (hence unmatched) cards. -/
theorem matched_cards_stay_faceup (sh : List GameCard → List GameCard)
    (hsh : ∀ l, (sh l).Perm l) (s : MemState)
    (res : Except String (List WordImagePair)) (cardId : Nat) :
    (MemInv s → MemInv (startNewGame sh s res))
    ∧ (MemInv s → MemInv (handleCardClick cardId s))
    ∧ (∀ s', checkMatch s = some s' → MemInv s → MemInv s') := by
  refine ⟨?_, ?_, ?_⟩
  · intro hInv
    obtain ⟨hm, hsel, hnd⟩ := hInv
    cases res with
    | error e =>
        refine ⟨hm, ?_, hnd⟩
        intro id0 hid0
        exact absurd hid0 (List.not_mem_nil id0)
    | ok pairs =>
        refine ⟨?_, ?_, ?_⟩
        · intro c hc hcm
          have hcb := (hsh (buildGameCards pairs 0)).mem_iff.mp hc
          have hflag := (mem_buildGameCards_flags hcb).2
          rw [hflag] at hcm
          exact Bool.noConfusion hcm
        · intro id0 hid0
          exact absurd hid0 (List.not_mem_nil id0)
        · show ((sh (buildGameCards pairs 0)).map (fun c => c.id)).Nodup
          exact ((hsh (buildGameCards pairs 0)).map
            (fun c => c.id)).nodup_iff.mpr (buildGameCards_ids_nodup pairs 0)
  · intro hInv
    obtain ⟨hm, hsel, hnd⟩ := hInv
    by_cases hg : flipGuard s cardId = true
    · unfold handleCardClick
      rw [if_pos hg]
      exact ⟨hm, hsel, hnd⟩
    · unfold handleCardClick
      rw [if_neg hg]
      have hfid : ∀ c : GameCard,
          ((fun c => if c.id == cardId then { c with isFlipped := true }
            else c) c).id = c.id := by
        intro c
        by_cases h : (c.id == cardId) = true
        · simp [h]
        · simp [h]
      refine ⟨?_, ?_, ?_⟩
      · intro c' hc' hcm
        obtain ⟨c, hc, rfl⟩ := List.mem_map.mp hc'
        by_cases h : (c.id == cardId) = true
        · rw [if_pos h]
        · rw [if_neg h] at hcm ⊢
          exact hm c hc hcm
      · intro id0 hid0 c' hc' hcid
        obtain ⟨c, hc, rfl⟩ := List.mem_map.mp hc'
        have hcid' : c.id = id0 := by
          rw [← hfid c]
          exact hcid
        rcases List.mem_append.mp hid0 with hold | hnew
        · obtain ⟨hf, hm0⟩ := hsel id0 hold c hc hcid'
          by_cases h : (c.id == cardId) = true
          · rw [if_pos h]
            exact ⟨rfl, hm0⟩
          · rw [if_neg h]
            exact ⟨hf, hm0⟩
        · have hid0id : id0 = cardId := by
            simpa using hnew
          have hcc : (c.id == cardId) = true := by
            simp only [beq_iff_eq]
            rw [hcid', hid0id]
          rw [if_pos hcc]
          refine ⟨rfl, ?_⟩
          have hgf : flipGuard s cardId = false := Bool.eq_false_iff.mpr hg
          have hcomp : ((s.cards.find? (fun c2 => c2.id == cardId)).elim
              false (fun c2 => c2.isFlipped)) = false := by
            unfold flipGuard at hgf
            exact (Bool.or_eq_false_iff.mp hgf).2
          cases hfind : s.cards.find? (fun c2 => c2.id == cardId) with
          | none =>
              exact absurd hcc (List.find?_eq_none.mp hfind c hc)
          | some c0 =>
              rw [hfind] at hcomp
              have hflip0 : c0.isFlipped = false := hcomp
              have hc0mem := List.mem_of_find?_eq_some hfind
              have hc0id : c0.id = cardId := by
                have := List.find?_some hfind
                simpa using this
              have hceq : c = c0 :=
                List.inj_on_of_nodup_map hnd hc hc0mem (by
                  have hcid2 : c.id = cardId := by simpa using hcc
                  rw [hcid2, hc0id])
              rcases Bool.eq_false_or_eq_true c.isMatched with hcm2 | hcm2
              · exfalso
                have hcf := hm c hc hcm2
                rw [hceq] at hcf
                rw [hcf] at hflip0
                exact Bool.noConfusion hflip0
              · exact hcm2
      · exact cardIds_map_nodup hnd _ hfid
  · intro s' hcm hInv
    obtain ⟨hm, hsel, hnd⟩ := hInv
    unfold checkMatch at hcm
    by_cases h2 : s.flippedCards.length ≠ 2
    · rw [if_pos h2] at hcm
      injection hcm with h
      subst h
      exact ⟨hm, hsel, hnd⟩
    · rw [if_neg h2] at hcm
      cases hfil : s.cards.filter (fun c => s.flippedCards.contains c.id) with
      | nil =>
          rw [hfil] at hcm
          exact Option.noConfusion hcm
      | cons c1 rest =>
          cases rest with
          | nil =>
              rw [hfil] at hcm
              exact Option.noConfusion hcm
          | cons c2 rest2 =>
              rw [hfil] at hcm
              dsimp only at hcm
              by_cases hpair : (c1.pairId == c2.pairId) = true
              · rw [if_pos hpair] at hcm
                injection hcm with h
                subst h
                refine ⟨?_, ?_, ?_⟩
                · intro c' hc' hcm2
                  obtain ⟨c, hc, rfl⟩ := List.mem_map.mp hc'
                  by_cases hin : (s.flippedCards.contains c.id) = true
                  · have hmem := contains_iff_mem.mp hin
                    obtain ⟨hf, _⟩ := hsel c.id hmem c hc rfl
                    rw [if_pos hin]
                    exact hf
                  · rw [if_neg hin] at hcm2 ⊢
                    exact hm c hc hcm2
                · intro id0 hid0
                  exact absurd hid0 (List.not_mem_nil id0)
                · exact cardIds_map_nodup hnd _ (by
                    intro c
                    split <;> rfl)
              · rw [if_neg hpair] at hcm
                injection hcm with h
                subst h
                refine ⟨?_, ?_, ?_⟩
                · intro c' hc' hcm2
                  obtain ⟨c, hc, rfl⟩ := List.mem_map.mp hc'
                  by_cases hin : (s.flippedCards.contains c.id) = true
                  · exfalso
                    have hmem := contains_iff_mem.mp hin
                    obtain ⟨_, hm0⟩ := hsel c.id hmem c hc rfl
                    rw [if_pos hin] at hcm2
                    have hcmc : c.isMatched = true := hcm2
                    rw [hm0] at hcmc
                    exact Bool.noConfusion hcmc
                  · rw [if_neg hin] at hcm2 ⊢
                    exact hm c hc hcm2
                · intro id0 hid0
                  exact absurd hid0 (List.not_mem_nil id0)
                · exact cardIds_map_nodup hnd _ (by
                    intro c
                    split <;> rfl)

/-- Witness for C10: clicking the already face-up card 0 on the invariant
board preserves the invariant (here the click is guard-rejected). -/
theorem matched_cards_stay_faceup_witness :
    MemInv (handleCardClick 0 oneCardBoard) := by
  apply (matched_cards_stay_faceup (fun l => l) (fun l => List.Perm.refl l)
      oneCardBoard (Except.error "e") 0).2.1
  refine ⟨?_, ?_, ?_⟩
  · intro c hc hcm
    rcases List.mem_singleton.mp hc with rfl
    rfl
  · intro id0 hid0 c hc hcid
    rcases List.mem_singleton.mp hc with rfl
    exact ⟨rfl, rfl⟩
  · show ((oneCardBoard.cards).map (fun c => c.id)).Nodup
    simp [oneCardBoard]

end SpeakidsGame
